import Mathlib

/-!
Verification of the sheet/column identification and historical-mapping-learning
subsystem of the ai-playground repository.

Shallow embedding conventions:
* Python dicts are association lists `List (String × α)` with first-key-wins
  lookup (`dictGet`) and in-place update / append-on-miss assignment
  (`dictSet`), matching CPython's insertion-ordered dict semantics.
* A pandas `DataFrame` is a row index together with an ordered list of named
  columns; cell values are strings (the code under study copies values
  verbatim and never inspects them).
* The classification oracle (the external OpenAI call) is a parameter: an
  `OracleResp` is `none` when the API call raises or the response is not valid
  JSON, and `some obj` when the response parsed to the JSON object `obj`
  (string-valued keys, which is the shape the prompts request).
* Thread-pool completion order only affects the insertion order of the
  coordinator's result dict; the claims settled here are insensitive to that
  order, so results are collected in submission (list) order.
-/

namespace AIPlayground

/-- models.py: `TargetColumn` dataclass. -/
structure TargetColumn where
  name : String
  data_type : String
  description : String
  examples : List String := []
  historical_variations : List String := []
deriving Repr, DecidableEq

/-- models.py: `DEFAULT_TARGET_COLUMNS`. -/
def DEFAULT_TARGET_COLUMNS : List TargetColumn :=
  [ { name := "account_id", data_type := "string",
      description := "Unique identifier for the account",
      examples := ["AC12345", "10042", "ACCT-987654321"] },
    { name := "balance", data_type := "number",
      description := "Current account balance in currency units",
      examples := ["1250.00", "$5,423.50", "10000.75"] },
    { name := "open_date", data_type := "date",
      description := "Date when the account was opened",
      examples := ["2020-01-15", "2019-06-30", "2022-12-01"] },
    { name := "status", data_type := "string",
      description := "Current status of the account",
      examples := ["active", "inactive", "pending"] },
    { name := "customer_name", data_type := "string",
      description := "Full name of the customer or account holder",
      examples := ["John Doe", "Jane Smith", "Acme Corporation"] } ]

/-- controller.py: `TARGET_COLUMN_NAMES`, the registry's declared
target-column order. -/
def TARGET_COLUMN_NAMES : List String := DEFAULT_TARGET_COLUMNS.map (·.name)

/-- Python dict lookup `d.get(k)`: first (hence unique, in an actual dict)
entry with the given key. -/
def dictGet : List (String × α) → String → Option α
  | [], _ => none
  | p :: rest, k => if p.1 = k then some p.2 else dictGet rest k

/-- Python dict membership test `k in d`. -/
def dictHasKey : List (String × α) → String → Bool
  | [], _ => false
  | p :: rest, k => if p.1 = k then true else dictHasKey rest k

/-- Python dict assignment `d[k] = v`: replace the entry in place when the key
exists, append otherwise (insertion-ordered dict semantics). -/
def dictSet : List (String × α) → String → α → List (String × α)
  | [], k, v => [(k, v)]
  | p :: rest, k, v => if p.1 = k then (k, v) :: rest else p :: dictSet rest k v

/-- A pandas DataFrame: a row index plus ordered named columns. -/
structure DataFrame where
  index : List Nat
  cols : List (String × List String)
deriving Repr, DecidableEq

/-- Membership test on `df.columns` (`c in df.columns`). -/
def dfHasCol (df : DataFrame) (c : String) : Bool :=
  dictHasKey df.cols c

/-- Column access `df[c]`: the values of column `c`, when present. -/
def dfGetCol (df : DataFrame) (c : String) : Option (List String) :=
  dictGet df.cols c

/-- An oracle interaction: `none` when the API call raised or `json.loads`
failed, `some obj` when the response parsed to the JSON object `obj`. -/
abbrev OracleResp := Option (List (String × String))

/-- ai_utils.py lines 157-162 inside `identify_column`: the combined alias
list sent to the oracle.  Starts from a copy of the registry's
`historical_variations`; when a truthy `historical_mappings` dict has an entry
for the target column, each of its aliases is appended unless already
present. -/
def combineVariations (target_column : TargetColumn)
    (historical_mappings : Option (List (String × List String))) : List String :=
  let all_variations := target_column.historical_variations
  match historical_mappings with
  | none => all_variations
  | some m =>
    if m.isEmpty then all_variations
    else
      match dictGet m target_column.name with
      | none => all_variations
      | some ext =>
          ext.foldl (fun acc v => if v ∈ acc then acc else acc ++ [v]) all_variations

/-- The spec's own description of the combined alias list (§4.2), transcribed
for the refinement theorem of claim C7: "those externally supplied aliases not
already in that list, preserving order" — the aliases of `ext` that are not in
the list built so far, in order. -/
def specNewAliases (seen : List String) : List String → List String
  | [] => []
  | v :: vs => if v ∈ seen then specNewAliases seen vs else v :: specNewAliases (seen ++ [v]) vs

/-- The external alias list that `identify_column`'s merge loop actually
iterates over: empty when `historical_mappings` is `None`, falsy, or lacks the
target column's key. -/
def extAliases (target_column : TargetColumn)
    (historical_mappings : Option (List (String × List String))) : List String :=
  match historical_mappings with
  | none => []
  | some m => if m.isEmpty then [] else (dictGet m target_column.name).getD []

/-- ai_utils.py `identify_column` (validation logic, lines 209-225): from the
oracle's response, `.get` the value at the target column's name; a falsy value
(missing key / empty string) or a value not among `df.columns` yields `None`;
any exception (API error, JSON parse error) was already caught and yields
`None`.  `historical_mappings` only shapes the prompt, never the validation. -/
def identify_column (df : DataFrame) (target_column : TargetColumn)
    (historical_mappings : Option (List (String × List String)))
    (resp : OracleResp) : Option String :=
  match resp with
  | none => none
  | some obj =>
    match dictGet obj target_column.name with
    | none => none
    | some guessed_column =>
      if guessed_column = "" then none
      else if dfHasCol df guessed_column then some guessed_column
      else none

/-- ai_utils.py `identify_columns_with_threads` lines 247-265: collect, per
target column, the successful classification into the `column_mappings` dict;
failed classifications (`None`) are skipped. -/
def collectMappings (df : DataFrame) (target_columns : List TargetColumn)
    (historical_mappings : Option (List (String × List String)))
    (oracle : String → OracleResp) : List (String × String) :=
  target_columns.foldl
    (fun acc tc =>
      match identify_column df tc historical_mappings (oracle tc.name) with
      | some g => dictSet acc tc.name g
      | none => acc)
    []

/-- ai_utils.py lines 269-271: the alias-update loop.  For each mapped pair,
`historical_mappings[column_name]` is indexed without a default — a missing
key raises `KeyError` (modelled as `.error`); otherwise the guessed column is
appended unless already present. -/
def updateHistorical : List (String × String) → List (String × List String) →
    Except String (List (String × List String))
  | [], hm => .ok hm
  | p :: rest, hm =>
    match dictGet hm p.1 with
    | none => .error p.1
    | some lst =>
        updateHistorical rest (if p.2 ∈ lst then hm else dictSet hm p.1 (lst ++ [p.2]))

/-- Holds when `v` is recorded as an alias of target column `k` in partition `m`. -/
def hmMem (m : List (String × List String)) (k v : String) : Prop :=
  ∃ lst, dictGet m k = some lst ∧ v ∈ lst

/-- ai_utils.py `identify_columns_with_threads` (lines 228-273): collect the
per-column classifications, then, when `update_historical` is set and
`historical_mappings` is truthy (not `None`, not empty), run the alias-update
loop, whose `KeyError` propagates to the caller.  Returns the mappings dict
and the (possibly mutated) `historical_mappings`. -/
def identify_columns_with_threads (df : DataFrame) (target_columns : List TargetColumn)
    (historical_mappings : Option (List (String × List String)))
    (update_historical : Bool) (oracle : String → OracleResp) :
    Except String (List (String × String) × Option (List (String × List String))) :=
  let column_mappings := collectMappings df target_columns historical_mappings oracle
  match historical_mappings with
  | none => .ok (column_mappings, none)
  | some m =>
    if update_historical && !m.isEmpty then
      (updateHistorical column_mappings m).map (fun m2 => (column_mappings, some m2))
    else
      .ok (column_mappings, some m)

/-- ai_utils.py `identify_target_sheet` (validation logic, lines 103-136):
`None` when the call/parse failed, when the object lacks `target_sheet`, or
when the named sheet is not among the workbook's sheet names; otherwise the
named sheet. -/
def identify_target_sheet (sheet_names : List String) (resp : OracleResp) :
    Option String :=
  match resp with
  | none => none
  | some result =>
    match dictGet result "target_sheet" with
    | none => none
    | some target_sheet =>
      if target_sheet ∈ sheet_names then some target_sheet else none

/-- The persisted alias store: `historical_column_variations.json`, a dict
keyed by `schema.table`, each value a dict from target-column name to alias
list. -/
abbrev Store := List (String × List (String × List String))

/-- controller.py lines 198-206: the per-table partition at the start of an
identification run.  On a successful read, `all_mappings.get(current_table, {})`;
on a read failure, `{col.name: [] for col in TARGET_COLUMNS}`. -/
def initialPartition (readResult : Option Store) (current_table : String)
    (target_columns : List TargetColumn) : List (String × List String) :=
  match readResult with
  | some all_mappings => (dictGet all_mappings current_table).getD []
  | none => target_columns.map (fun c => (c.name, []))

/-- controller.py lines 209-210: `historical_mappings.setdefault(column.name, [])`
for every target column. -/
def ensureKeys (hm : List (String × List String)) (target_columns : List TargetColumn) :
    List (String × List String) :=
  target_columns.foldl
    (fun acc c => if dictHasKey acc c.name then acc else dictSet acc c.name []) hm

/-- controller.py lines 222-234: the save step.  The whole on-disk store is
re-read immediately before writing (the re-read snapshot is `all_mappings`),
and only the current table's key is assigned. -/
def save_mappings (all_mappings : Store) (current_table : String)
    (partition : List (String × List String)) : Store :=
  dictSet all_mappings current_table partition

/-- The observable outcome of controller.py `identify_sheet_and_columns`
(restricted to the column phase, the sheet already chosen). -/
structure IdResult where
  success : Bool
  column_mappings : List (String × String)
  error : Option String
deriving Repr, DecidableEq

/-- controller.py `identify_sheet_and_columns`, column phase (lines 195-244):
load the partition (read failure degrades per `initialPartition`), setdefault
every target column, classify with `update_historical=True`, then attempt the
save (write failure and re-read failure are caught and only reported).  Any
exception escaping `identify_columns_with_threads` is caught by the outer
`except` and recorded as an error result.  Returns the result dict and, when
the write succeeded, the store that was written. -/
def identify_sheet_and_columns (df : DataFrame) (target_columns : List TargetColumn)
    (oracle : String → OracleResp) (readResult : Option Store)
    (rereadResult : Option Store) (writeOk : Bool) (current_table : String) :
    IdResult × Option Store :=
  let hm0 := initialPartition readResult current_table target_columns
  let hm1 := ensureKeys hm0 target_columns
  match identify_columns_with_threads df target_columns (some hm1) true oracle with
  | .error e => ({ success := false, column_mappings := [], error := some e }, none)
  | .ok (column_mappings, hmOut) =>
    let finalPartition := (hmOut.getD hm1)
    let written : Option Store :=
      if writeOk then some (save_mappings (rereadResult.getD []) current_table finalPartition)
      else none
    ({ success := true, column_mappings := column_mappings, error := none }, written)

/-- controller.py `apply_column_mappings` (lines 247-267): start from
`pd.DataFrame()` (empty index, no columns) and, iterating the mapping dict in
insertion order, assign `result_df[target_col] = df[excel_col]` whenever the
source column exists.  Assigning a Series to an empty DataFrame adopts the
Series' index; later assignments align on the index already set. -/
def apply_column_mappings (df : DataFrame) (mappings : List (String × String)) :
    DataFrame :=
  mappings.foldl
    (fun result_df p =>
      match dfGetCol df p.2 with
      | some vals =>
        { index := if result_df.cols.isEmpty then df.index else result_df.index,
          cols := dictSet result_df.cols p.1 vals }
      | none => result_df)
    { index := [], cols := [] }

/-! Section: Association-list lemmas -/

theorem dictGet_dictSet_self (l : List (String × α)) (k : String) (v : α) :
    dictGet (dictSet l k v) k = some v := by
  induction l with
  | nil => simp [dictSet, dictGet]
  | cons p rest ih =>
    by_cases h : p.1 = k
    · simp [dictSet, dictGet, h]
    · simp [dictSet, dictGet, h, ih]

theorem dictGet_dictSet_ne (l : List (String × α)) (k k' : String) (v : α)
    (h : k' ≠ k) : dictGet (dictSet l k v) k' = dictGet l k' := by
  induction l with
  | nil => simp [dictSet, dictGet, Ne.symm h]
  | cons p rest ih =>
    by_cases hp : p.1 = k
    · simp [dictSet, dictGet, hp, Ne.symm h, h]
    · by_cases hp' : p.1 = k'
      · simp [dictSet, dictGet, hp, hp', h, ih]
      · simp [dictSet, dictGet, hp, hp', h, ih]

theorem dictHasKey_dictSet (l : List (String × α)) (k k' : String) (v : α) :
    dictHasKey (dictSet l k v) k' = (dictHasKey l k' || decide (k' = k)) := by
  induction l with
  | nil =>
    by_cases h : k' = k
    · simp [dictSet, dictHasKey, h]
    · simp [dictSet, dictHasKey, h, Ne.symm h]
  | cons p rest ih =>
    by_cases hp : p.1 = k
    · by_cases h : k' = k
      · simp [dictSet, dictHasKey, hp, h]
      · simp [dictSet, dictHasKey, hp, h, Ne.symm h]
    · by_cases hp' : p.1 = k'
      · have hk : ¬ k' = k := fun hh => hp (hp'.trans hh)
        simp [dictSet, dictHasKey, hp, hp', hk, ih]
      · simp [dictSet, dictHasKey, hp, hp', ih]

theorem dictSet_of_not_hasKey (l : List (String × α)) (k : String) (v : α)
    (h : dictHasKey l k = false) : dictSet l k v = l ++ [(k, v)] := by
  induction l with
  | nil => simp [dictSet]
  | cons p rest ih =>
    by_cases hp : p.1 = k
    · simp [dictHasKey, hp] at h
    · simp [dictHasKey, hp] at h
      simp [dictSet, hp, ih h]

theorem dictGet_eq_none_iff (l : List (String × α)) (k : String) :
    dictGet l k = none ↔ dictHasKey l k = false := by
  induction l with
  | nil => simp [dictGet, dictHasKey]
  | cons p rest ih =>
    by_cases hp : p.1 = k
    · simp [dictGet, dictHasKey, hp]
    · simp [dictGet, dictHasKey, hp, ih]

theorem mem_dictSet (l : List (String × α)) (k : String) (v : α) (p : String × α)
    (h : p ∈ dictSet l k v) : p ∈ l ∨ p = (k, v) := by
  induction l with
  | nil =>
    simp [dictSet] at h
    exact Or.inr h
  | cons q rest ih =>
    by_cases hq : q.1 = k
    · simp [dictSet, hq] at h
      rcases h with h | h
      · exact Or.inr h
      · exact Or.inl (List.mem_cons_of_mem _ h)
    · simp [dictSet, hq] at h
      rcases h with h | h
      · exact Or.inl (by simp [h])
      · rcases ih h with h' | h'
        · exact Or.inl (List.mem_cons_of_mem _ h')
        · exact Or.inr h'

theorem dictSet_ne_nil (l : List (String × α)) (k : String) (v : α) :
    dictSet l k v ≠ [] := by
  cases l with
  | nil => simp [dictSet]
  | cons p rest =>
    by_cases hp : p.1 = k <;> simp [dictSet, hp]

theorem dictGet_some_mem (l : List (String × α)) (k : String) (v : α)
    (h : dictGet l k = some v) : (k, v) ∈ l := by
  induction l with
  | nil => simp [dictGet] at h
  | cons p rest ih =>
    by_cases hp : p.1 = k
    · simp [dictGet, hp] at h
      have hpkv : p = (k, v) := by
        cases p
        simp_all
      exact hpkv ▸ List.mem_cons_self p rest
    · simp [dictGet, hp] at h
      exact List.mem_cons_of_mem _ (ih h)

/-! Section: Claim C4: partition isolation of the save step -/

/-- Claim C4: saving the current table's partition into the re-read store
changes only that table's key — every other table identifier's alias entries
are looked up unchanged, and the current table's key now holds exactly the
saved partition. -/
theorem C4_partition_isolation (all_mappings : Store) (current_table : String)
    (partition : List (String × List String)) (k : String)
    (h : k ≠ current_table) :
    dictGet (save_mappings all_mappings current_table partition) k
      = dictGet all_mappings k ∧
    dictGet (save_mappings all_mappings current_table partition) current_table
      = some partition := by
  constructor
  · exact dictGet_dictSet_ne all_mappings current_table k partition h
  · exact dictGet_dictSet_self all_mappings current_table partition

/-- Witness for C4 at a concrete store holding two tables. -/
theorem C4_partition_isolation_witness :
    dictGet (save_mappings [("A.B", [("account_id", ["Acct"])]),
                            ("C.D", [("balance", ["Bal"])])] "A.B"
              [("account_id", ["Acct", "AcctNo"])]) "C.D"
      = dictGet [("A.B", [("account_id", ["Acct"])]),
                 ("C.D", [("balance", ["Bal"])])] "C.D" ∧
    dictGet (save_mappings [("A.B", [("account_id", ["Acct"])]),
                            ("C.D", [("balance", ["Bal"])])] "A.B"
              [("account_id", ["Acct", "AcctNo"])]) "A.B"
      = some [("account_id", ["Acct", "AcctNo"])] :=
  C4_partition_isolation
    [("A.B", [("account_id", ["Acct"])]), ("C.D", [("balance", ["Bal"])])]
    "A.B" [("account_id", ["Acct", "AcctNo"])] "C.D" (by decide)

/-! Section: Claim C5: sheet-classifier validation -/

/-- Claim C5: `identify_target_sheet` returns `none` when the oracle response
does not parse, lacks the `target_sheet` key, or names a sheet outside the
workbook; and whenever it returns a sheet, that sheet is one of the workbook's
sheet names. -/
theorem C5_sheet_validation (sheet_names : List String) (resp : OracleResp) :
    (∀ s, identify_target_sheet sheet_names resp = some s → s ∈ sheet_names) ∧
    (resp = none → identify_target_sheet sheet_names resp = none) ∧
    (∀ obj, resp = some obj → dictGet obj "target_sheet" = none →
      identify_target_sheet sheet_names resp = none) ∧
    (∀ obj ts, resp = some obj → dictGet obj "target_sheet" = some ts →
      ts ∉ sheet_names → identify_target_sheet sheet_names resp = none) := by
  refine ⟨?_, ?_, ?_, ?_⟩
  · intro s hs
    cases resp with
    | none => simp [identify_target_sheet] at hs
    | some obj =>
      cases hobj : dictGet obj "target_sheet" with
      | none => simp [identify_target_sheet, hobj] at hs
      | some ts =>
        by_cases hmem : ts ∈ sheet_names
        · simp [identify_target_sheet, hobj, hmem] at hs
          exact hs ▸ hmem
        · simp [identify_target_sheet, hobj, hmem] at hs
  · intro h
    subst h
    rfl
  · intro obj hobj hget
    subst hobj
    simp [identify_target_sheet, hget]
  · intro obj ts hobj hget hmem
    subst hobj
    simp [identify_target_sheet, hget, hmem]

/-- Witness for C5: a valid answer is returned and lies in the sheet set; an
answer naming an unknown sheet yields `none`. -/
theorem C5_sheet_validation_witness :
    "Data" ∈ ["Summary", "Data"] ∧
    identify_target_sheet ["Summary", "Data"] (some [("target_sheet", "Other")])
      = none :=
  ⟨(C5_sheet_validation ["Summary", "Data"] (some [("target_sheet", "Data")])).1
      "Data" rfl,
   (C5_sheet_validation ["Summary", "Data"] (some [("target_sheet", "Other")])).2.2.2
      [("target_sheet", "Other")] "Other" rfl rfl (by decide)⟩

/-! Section: Claim C7: the combined alias list -/

theorem foldl_dedup_eq_append_specNewAliases (ext : List String) :
    ∀ acc : List String,
      ext.foldl (fun acc v => if v ∈ acc then acc else acc ++ [v]) acc
        = acc ++ specNewAliases acc ext := by
  induction ext with
  | nil => intro acc; simp [specNewAliases]
  | cons v vs ih =>
    intro acc
    by_cases hv : v ∈ acc
    · simp [List.foldl, hv, specNewAliases, ih]
    · simp only [List.foldl, hv, if_false, specNewAliases, ih (acc ++ [v])]
      simp

theorem specNewAliases_sublist (ext : List String) :
    ∀ seen : List String, List.Sublist (specNewAliases seen ext) ext := by
  induction ext with
  | nil => intro seen; simp [specNewAliases]
  | cons v vs ih =>
    intro seen
    by_cases hv : v ∈ seen
    · simp only [specNewAliases, hv, if_true]
      exact List.Sublist.cons v (ih seen)
    · simp only [specNewAliases, hv, if_false]
      exact List.Sublist.cons₂ v (ih (seen ++ [v]))

theorem specNewAliases_not_mem_seen (ext : List String) :
    ∀ seen : List String, ∀ v ∈ specNewAliases seen ext, v ∉ seen := by
  induction ext with
  | nil => intro seen v hv; simp [specNewAliases] at hv
  | cons a vs ih =>
    intro seen v hv
    by_cases ha : a ∈ seen
    · simp only [specNewAliases, ha, if_true] at hv
      exact ih seen v hv
    · simp only [specNewAliases, ha, if_false] at hv
      rcases List.mem_cons.mp hv with h | h
      · exact h ▸ ha
      · intro hseen
        exact ih (seen ++ [a]) v h (List.mem_append_left _ hseen)

theorem specNewAliases_nodup (ext : List String) :
    ∀ seen : List String, (specNewAliases seen ext).Nodup := by
  induction ext with
  | nil => intro seen; simp [specNewAliases]
  | cons a vs ih =>
    intro seen
    by_cases ha : a ∈ seen
    · simp only [specNewAliases, ha, if_true]
      exact ih seen
    · simp only [specNewAliases, ha, if_false]
      refine List.nodup_cons.mpr ⟨?_, ih (seen ++ [a])⟩
      intro hmem
      exact specNewAliases_not_mem_seen vs (seen ++ [a]) a hmem
        (List.mem_append_right _ (by simp))

/-- Claim C7: the combined alias list built by `identify_column` is the
registry's `historical_variations` followed by exactly the externally supplied
aliases not already present (first-seen order, no duplicates introduced by the
merge, registry aliases first). -/
theorem C7_combined_aliases (tc : TargetColumn)
    (hm : Option (List (String × List String))) :
    combineVariations tc hm
      = tc.historical_variations
        ++ specNewAliases tc.historical_variations (extAliases tc hm) ∧
    List.Sublist (specNewAliases tc.historical_variations (extAliases tc hm))
      (extAliases tc hm) ∧
    (∀ v ∈ specNewAliases tc.historical_variations (extAliases tc hm),
      v ∉ tc.historical_variations) ∧
    (specNewAliases tc.historical_variations (extAliases tc hm)).Nodup := by
  refine ⟨?_, specNewAliases_sublist _ _, specNewAliases_not_mem_seen _ _,
    specNewAliases_nodup _ _⟩
  cases hm with
  | none => simp [combineVariations, extAliases, specNewAliases]
  | some m =>
    by_cases hempty : m.isEmpty
    · simp [combineVariations, extAliases, hempty, specNewAliases]
    · cases hget : dictGet m tc.name with
      | none =>
        simp [combineVariations, extAliases, hempty, hget, specNewAliases]
      | some ext =>
        simp only [combineVariations, extAliases, hempty, hget, if_false,
          Bool.false_eq_true, Option.getD_some]
        exact foldl_dedup_eq_append_specNewAliases ext tc.historical_variations

/-! Section: Column-classifier and coordinator lemmas -/

theorem dictHasKey_append (l₁ l₂ : List (String × α)) (k : String) :
    dictHasKey (l₁ ++ l₂) k = (dictHasKey l₁ k || dictHasKey l₂ k) := by
  induction l₁ with
  | nil => simp [dictHasKey]
  | cons p rest ih =>
    by_cases hp : p.1 = k
    · simp [dictHasKey, hp]
    · simp [dictHasKey, hp, ih]

theorem identify_column_hasCol (df : DataFrame) (tc : TargetColumn)
    (hm : Option (List (String × List String))) (resp : OracleResp) (g : String)
    (h : identify_column df tc hm resp = some g) : dfHasCol df g = true := by
  cases resp with
  | none => simp [identify_column] at h
  | some obj =>
    cases hg : dictGet obj tc.name with
    | none => simp [identify_column, hg] at h
    | some gc =>
      by_cases he : gc = ""
      · simp [identify_column, hg, he] at h
      · by_cases hc : dfHasCol df gc = true
        · simp [identify_column, hg, he, hc] at h
          exact h ▸ hc
        · simp [identify_column, hg, he, hc] at h

theorem identify_column_none_of_not_hasCol (df : DataFrame) (tc : TargetColumn)
    (hm : Option (List (String × List String))) (obj : List (String × String))
    (g : String) (hg : dictGet obj tc.name = some g)
    (hc : dfHasCol df g = false) :
    identify_column df tc hm (some obj) = none := by
  by_cases he : g = ""
  · simp [identify_column, hg, he]
  · simp [identify_column, hg, he, hc]

theorem identify_column_hm_irrel (df : DataFrame) (tc : TargetColumn)
    (hm hm' : Option (List (String × List String))) (resp : OracleResp) :
    identify_column df tc hm resp = identify_column df tc hm' resp := rfl

theorem collectMappings_hm_irrel (df : DataFrame) (tcs : List TargetColumn)
    (hm hm' : Option (List (String × List String))) (oracle : String → OracleResp) :
    collectMappings df tcs hm oracle = collectMappings df tcs hm' oracle := rfl

theorem collect_aux (df : DataFrame) (hm : Option (List (String × List String)))
    (oracle : String → OracleResp) :
    ∀ (tcs : List TargetColumn) (acc : List (String × String)),
      (tcs.map (fun tc => tc.name)).Nodup →
      (∀ tc ∈ tcs, dictHasKey acc tc.name = false) →
      List.foldl
        (fun acc tc =>
          match identify_column df tc hm (oracle tc.name) with
          | some g => dictSet acc tc.name g
          | none => acc) acc tcs
      = acc ++ tcs.filterMap
          (fun tc => (identify_column df tc hm (oracle tc.name)).map
            (fun g => (tc.name, g))) := by
  intro tcs
  induction tcs with
  | nil => intro acc _ _; simp
  | cons tc rest ih =>
    intro acc hnodup hkeys
    have hnodup' : (rest.map (fun tc => tc.name)).Nodup := by
      simp only [List.map_cons, List.nodup_cons] at hnodup
      exact hnodup.2
    have hname : tc.name ∉ rest.map (fun tc => tc.name) := by
      simp only [List.map_cons, List.nodup_cons] at hnodup
      exact hnodup.1
    cases hid : identify_column df tc hm (oracle tc.name) with
    | none =>
      have hstep : List.foldl
          (fun acc tc =>
            match identify_column df tc hm (oracle tc.name) with
            | some g => dictSet acc tc.name g
            | none => acc) acc (tc :: rest)
        = List.foldl
            (fun acc tc =>
              match identify_column df tc hm (oracle tc.name) with
              | some g => dictSet acc tc.name g
              | none => acc) acc rest := by
        simp [List.foldl_cons, hid]
      rw [hstep, ih acc hnodup' (fun tc' h' => hkeys tc' (List.mem_cons_of_mem _ h'))]
      simp [List.filterMap_cons, hid]
    | some g =>
      have hkey : dictHasKey acc tc.name = false := hkeys tc (List.mem_cons_self _ _)
      have hstep : List.foldl
          (fun acc tc =>
            match identify_column df tc hm (oracle tc.name) with
            | some g => dictSet acc tc.name g
            | none => acc) acc (tc :: rest)
        = List.foldl
            (fun acc tc =>
              match identify_column df tc hm (oracle tc.name) with
              | some g => dictSet acc tc.name g
              | none => acc) (acc ++ [(tc.name, g)]) rest := by
        simp [List.foldl_cons, hid, dictSet_of_not_hasKey acc tc.name g hkey]
      have hkeys' : ∀ tc' ∈ rest, dictHasKey (acc ++ [(tc.name, g)]) tc'.name = false := by
        intro tc' h'
        have h1 : dictHasKey acc tc'.name = false :=
          hkeys tc' (List.mem_cons_of_mem _ h')
        have h2 : ¬ tc'.name = tc.name := by
          intro hh
          exact hname (hh ▸ List.mem_map_of_mem (fun tc => tc.name) h')
        have h2s : ¬ tc.name = tc'.name := fun hh => h2 hh.symm
        simp [dictHasKey_append, h1, dictHasKey, h2, h2s]
      rw [hstep, ih (acc ++ [(tc.name, g)]) hnodup' hkeys']
      simp [List.filterMap_cons, hid]

theorem collectMappings_eq_filterMap (df : DataFrame) (tcs : List TargetColumn)
    (hm : Option (List (String × List String))) (oracle : String → OracleResp)
    (hnodup : (tcs.map (fun tc => tc.name)).Nodup) :
    collectMappings df tcs hm oracle
      = tcs.filterMap
          (fun tc => (identify_column df tc hm (oracle tc.name)).map
            (fun g => (tc.name, g))) := by
  have := collect_aux df hm oracle tcs [] hnodup (by intro tc _; rfl)
  simpa [collectMappings] using this

theorem collect_mem (df : DataFrame) (hm : Option (List (String × List String)))
    (oracle : String → OracleResp) :
    ∀ (tcs : List TargetColumn) (acc : List (String × String)) (p : String × String),
      p ∈ List.foldl
        (fun acc tc =>
          match identify_column df tc hm (oracle tc.name) with
          | some g => dictSet acc tc.name g
          | none => acc) acc tcs →
      p ∈ acc ∨ ∃ tc ∈ tcs, p.1 = tc.name ∧
        identify_column df tc hm (oracle tc.name) = some p.2 := by
  intro tcs
  induction tcs with
  | nil => intro acc p h; exact Or.inl (by simpa using h)
  | cons tc rest ih =>
    intro acc p h
    cases hid : identify_column df tc hm (oracle tc.name) with
    | none =>
      have h' : p ∈ List.foldl
          (fun acc tc =>
            match identify_column df tc hm (oracle tc.name) with
            | some g => dictSet acc tc.name g
            | none => acc) acc rest := by
        simpa [List.foldl_cons, hid] using h
      rcases ih acc p h' with hl | ⟨tc', htc', hp⟩
      · exact Or.inl hl
      · exact Or.inr ⟨tc', List.mem_cons_of_mem _ htc', hp⟩
    | some g =>
      have h' : p ∈ List.foldl
          (fun acc tc =>
            match identify_column df tc hm (oracle tc.name) with
            | some g => dictSet acc tc.name g
            | none => acc) (dictSet acc tc.name g) rest := by
        simpa [List.foldl_cons, hid] using h
      rcases ih (dictSet acc tc.name g) p h' with hl | ⟨tc', htc', hp⟩
      · rcases mem_dictSet acc tc.name g p hl with hacc | hpe
        · exact Or.inl hacc
        · refine Or.inr ⟨tc, List.mem_cons_self _ _, ?_, ?_⟩
          · rw [hpe]
          · rw [hpe]
            simpa using hid
      · exact Or.inr ⟨tc', List.mem_cons_of_mem _ htc', hp⟩

theorem collectMappings_mem (df : DataFrame) (tcs : List TargetColumn)
    (hm : Option (List (String × List String))) (oracle : String → OracleResp)
    (p : String × String) (h : p ∈ collectMappings df tcs hm oracle) :
    ∃ tc ∈ tcs, p.1 = tc.name ∧
      identify_column df tc hm (oracle tc.name) = some p.2 := by
  rcases collect_mem df hm oracle tcs [] p h with hl | he
  · simp at hl
  · exact he

/-! Section: Alias-update-loop lemmas -/

theorem updateHistorical_mem_preserved :
    ∀ (cm : List (String × String)) (m m' : List (String × List String)),
      updateHistorical cm m = .ok m' → ∀ k v, hmMem m k v → hmMem m' k v := by
  intro cm
  induction cm with
  | nil =>
    intro m m' h k v hv
    simp [updateHistorical] at h
    exact h ▸ hv
  | cons q rest ih =>
    intro m m' h k v hv
    cases hg : dictGet m q.1 with
    | none => simp [updateHistorical, hg] at h
    | some lst =>
      simp only [updateHistorical, hg] at h
      by_cases hmem : q.2 ∈ lst
      · rw [if_pos hmem] at h
        exact ih m m' h k v hv
      · rw [if_neg hmem] at h
        refine ih _ m' h k v ?_
        rcases hv with ⟨lst₀, hget₀, hvin⟩
        by_cases hk : k = q.1
        · subst hk
          have hl : lst₀ = lst := by
            rw [hget₀] at hg
            exact Option.some.inj hg
          exact ⟨lst ++ [q.2], dictGet_dictSet_self m q.1 (lst ++ [q.2]),
            List.mem_append_left _ (hl ▸ hvin)⟩
        · exact ⟨lst₀, by rw [dictGet_dictSet_ne m q.1 k (lst ++ [q.2]) hk]; exact hget₀,
            hvin⟩

theorem updateHistorical_post :
    ∀ (cm : List (String × String)) (m m' : List (String × List String)),
      updateHistorical cm m = .ok m' → ∀ p ∈ cm, hmMem m' p.1 p.2 := by
  intro cm
  induction cm with
  | nil => intro m m' _ p hp; simp at hp
  | cons q rest ih =>
    intro m m' h p hp
    cases hg : dictGet m q.1 with
    | none => simp [updateHistorical, hg] at h
    | some lst =>
      simp only [updateHistorical, hg] at h
      rcases List.mem_cons.mp hp with hpq | hpr
      · subst hpq
        by_cases hmem : p.2 ∈ lst
        · rw [if_pos hmem] at h
          exact updateHistorical_mem_preserved rest m m' h p.1 p.2 ⟨lst, hg, hmem⟩
        · rw [if_neg hmem] at h
          exact updateHistorical_mem_preserved rest _ m' h p.1 p.2
            ⟨lst ++ [p.2], dictGet_dictSet_self m p.1 (lst ++ [p.2]),
              List.mem_append_right _ (by simp)⟩
      · by_cases hmem : q.2 ∈ lst
        · rw [if_pos hmem] at h
          exact ih m m' h p hpr
        · rw [if_neg hmem] at h
          exact ih _ m' h p hpr

theorem updateHistorical_ok_of_mem :
    ∀ (cm : List (String × String)) (m : List (String × List String)),
      (∀ p ∈ cm, hmMem m p.1 p.2) → updateHistorical cm m = .ok m := by
  intro cm
  induction cm with
  | nil => intro m _; rfl
  | cons q rest ih =>
    intro m h
    rcases h q (List.mem_cons_self _ _) with ⟨lst, hget, hv⟩
    simp only [updateHistorical, hget, if_pos hv]
    exact ih m (fun p hp => h p (List.mem_cons_of_mem _ hp))

theorem updateHistorical_ok_of_hasKey :
    ∀ (cm : List (String × String)) (m : List (String × List String)),
      (∀ p ∈ cm, dictHasKey m p.1 = true) →
      ∃ m', updateHistorical cm m = .ok m' := by
  intro cm
  induction cm with
  | nil => intro m _; exact ⟨m, rfl⟩
  | cons q rest ih =>
    intro m h
    cases hg : dictGet m q.1 with
    | none =>
      have := (dictGet_eq_none_iff m q.1).mp hg
      rw [h q (List.mem_cons_self _ _)] at this
      cases this
    | some lst =>
      by_cases hmem : q.2 ∈ lst
      · rcases ih m (fun p hp => h p (List.mem_cons_of_mem _ hp)) with ⟨m', hm'⟩
        exact ⟨m', by simp only [updateHistorical, hg, if_pos hmem]; exact hm'⟩
      · have hkeys : ∀ p ∈ rest, dictHasKey (dictSet m q.1 (lst ++ [q.2])) p.1 = true := by
          intro p hp
          rw [dictHasKey_dictSet]
          simp [h p (List.mem_cons_of_mem _ hp)]
        rcases ih (dictSet m q.1 (lst ++ [q.2])) hkeys with ⟨m', hm'⟩
        exact ⟨m', by simp only [updateHistorical, hg, if_neg hmem]; exact hm'⟩

theorem updateHistorical_error_of_missing :
    ∀ (cm : List (String × String)) (m : List (String × List String)) (k v : String),
      (k, v) ∈ cm → dictGet m k = none →
      ∃ e, updateHistorical cm m = .error e := by
  intro cm
  induction cm with
  | nil => intro m k v h _; simp at h
  | cons q rest ih =>
    intro m k v h hmiss
    cases hg : dictGet m q.1 with
    | none => exact ⟨q.1, by simp [updateHistorical, hg]⟩
    | some lst =>
      rcases List.mem_cons.mp h with hq | hr
      · have : q.1 = k := by rw [← hq]
        rw [this] at hg
        rw [hg] at hmiss
        cases hmiss
      · have hk : k ≠ q.1 := by
          intro hh
          rw [hh, hg] at hmiss
          cases hmiss
        by_cases hmem : q.2 ∈ lst
        · rcases ih m k v hr hmiss with ⟨e, he⟩
          exact ⟨e, by simp only [updateHistorical, hg, if_pos hmem]; exact he⟩
        · have hmiss' : dictGet (dictSet m q.1 (lst ++ [q.2])) k = none := by
            rw [dictGet_dictSet_ne m q.1 k (lst ++ [q.2]) hk]
            exact hmiss
          rcases ih _ k v hr hmiss' with ⟨e, he⟩
          exact ⟨e, by simp only [updateHistorical, hg, if_neg hmem]; exact he⟩

theorem updateHistorical_ne_nil :
    ∀ (cm : List (String × String)) (m m' : List (String × List String)),
      m ≠ [] → updateHistorical cm m = .ok m' → m' ≠ [] := by
  intro cm
  induction cm with
  | nil =>
    intro m m' hne h
    simp [updateHistorical] at h
    exact h ▸ hne
  | cons q rest ih =>
    intro m m' hne h
    cases hg : dictGet m q.1 with
    | none => simp [updateHistorical, hg] at h
    | some lst =>
      simp only [updateHistorical, hg] at h
      by_cases hmem : q.2 ∈ lst
      · rw [if_pos hmem] at h
        exact ih m m' hne h
      · rw [if_neg hmem] at h
        exact ih _ m' (dictSet_ne_nil m q.1 (lst ++ [q.2])) h

/-! Section: Coordinator-level lemmas -/

theorem itct_ok_fst (df : DataFrame) (tcs : List TargetColumn)
    (hm : Option (List (String × List String))) (uh : Bool)
    (oracle : String → OracleResp)
    (r : List (String × String) × Option (List (String × List String)))
    (h : identify_columns_with_threads df tcs hm uh oracle = .ok r) :
    r.1 = collectMappings df tcs hm oracle := by
  cases hm with
  | none =>
    simp only [identify_columns_with_threads, Except.ok.injEq] at h
    rw [← h]
  | some m =>
    simp only [identify_columns_with_threads] at h
    by_cases hc : (uh && !m.isEmpty) = true
    · rw [if_pos hc] at h
      cases hu : updateHistorical (collectMappings df tcs (some m) oracle) m with
      | error e => rw [hu] at h; simp [Except.map] at h
      | ok m₂ =>
        rw [hu] at h
        simp only [Except.map, Except.ok.injEq] at h
        rw [← h]
    · rw [if_neg hc] at h
      simp only [Except.ok.injEq] at h
      rw [← h]

theorem length_filterMap_add (f : α → Option β) (l : List α) :
    (l.filterMap f).length + (l.filter (fun a => (f a).isNone)).length = l.length := by
  induction l with
  | nil => simp
  | cons a rest ih =>
    cases hf : f a with
    | none =>
      simp only [List.filterMap_cons, hf, List.filter_cons, Option.isNone_none,
        if_true, List.length_cons]
      omega
    | some b =>
      simp only [List.filterMap_cons, hf, List.filter_cons, Option.isNone_some,
        Bool.false_eq_true, if_false, List.length_cons]
      omega

theorem ensureKeys_mono :
    ∀ (tcs : List TargetColumn) (hm : List (String × List String)) (k : String),
      dictHasKey hm k = true → dictHasKey (ensureKeys hm tcs) k = true := by
  intro tcs
  induction tcs with
  | nil => intro hm k h; exact h
  | cons c rest ih =>
    intro hm k h
    simp only [ensureKeys, List.foldl_cons]
    by_cases hc : dictHasKey hm c.name = true
    · rw [if_pos hc]
      exact ih hm k h
    · rw [if_neg hc]
      refine ih (dictSet hm c.name []) k ?_
      rw [dictHasKey_dictSet]
      simp [h]

theorem ensureKeys_hasKey :
    ∀ (tcs : List TargetColumn) (hm : List (String × List String))
      (tc : TargetColumn), tc ∈ tcs →
      dictHasKey (ensureKeys hm tcs) tc.name = true := by
  intro tcs
  induction tcs with
  | nil => intro hm tc h; simp at h
  | cons c rest ih =>
    intro hm tc h
    rcases List.mem_cons.mp h with hc | hr
    · subst hc
      simp only [ensureKeys, List.foldl_cons]
      by_cases hk : dictHasKey hm tc.name = true
      · rw [if_pos hk]
        exact ensureKeys_mono rest hm tc.name hk
      · rw [if_neg hk]
        refine ensureKeys_mono rest (dictSet hm tc.name []) tc.name ?_
        rw [dictHasKey_dictSet]
        simp
    · simp only [ensureKeys, List.foldl_cons]
      by_cases hk : dictHasKey hm c.name = true
      · rw [if_pos hk]
        exact ih hm tc hr
      · rw [if_neg hk]
        exact ih (dictSet hm c.name []) tc hr

/-! Section: Claim C2: alias idempotence -/

/-- Claim C2: a second run of `identify_columns_with_threads` with
`update_historical = True`, the same oracle answers, and the alias partition
produced by the first run leaves both the column mappings and every alias
list unchanged: each alias is appended only when absent, so the second run
appends nothing. -/
theorem C2_alias_idempotence (df : DataFrame) (tcs : List TargetColumn)
    (m m₁ : List (String × List String)) (oracle : String → OracleResp)
    (cm : List (String × String))
    (h : identify_columns_with_threads df tcs (some m) true oracle
          = .ok (cm, some m₁)) :
    identify_columns_with_threads df tcs (some m₁) true oracle
      = .ok (cm, some m₁) := by
  cases m with
  | nil =>
    simp only [identify_columns_with_threads, List.isEmpty_nil, Bool.not_true,
      Bool.and_false, Bool.false_eq_true, if_false, Except.ok.injEq,
      Prod.mk.injEq, Option.some.injEq] at h
    rcases h with ⟨hcm, hm₁⟩
    subst hm₁
    simp only [identify_columns_with_threads, List.isEmpty_nil, Bool.not_true,
      Bool.and_false, Bool.false_eq_true, if_false, Except.ok.injEq,
      Prod.mk.injEq, Option.some.injEq]
    exact ⟨hcm, trivial⟩
  | cons a m' =>
    simp only [identify_columns_with_threads, List.isEmpty_cons, Bool.not_false,
      Bool.and_true, if_true] at h
    cases hu : updateHistorical (collectMappings df tcs (some (a :: m')) oracle)
        (a :: m') with
    | error e => rw [hu] at h; simp [Except.map] at h
    | ok m₂ =>
      rw [hu] at h
      simp only [Except.map, Except.ok.injEq, Prod.mk.injEq, Option.some.injEq] at h
      rcases h with ⟨hcm, hm₂⟩
      rw [hm₂] at hu
      have hpost : ∀ p ∈ collectMappings df tcs (some (a :: m')) oracle,
          hmMem m₁ p.1 p.2 :=
        updateHistorical_post (collectMappings df tcs (some (a :: m')) oracle)
          (a :: m') m₁ hu
      have hne : m₁ ≠ [] :=
        updateHistorical_ne_nil (collectMappings df tcs (some (a :: m')) oracle)
          (a :: m') m₁ (List.cons_ne_nil a m') hu
      cases hm₁ : m₁ with
      | nil => exact absurd hm₁ hne
      | cons b m₁' =>
        simp only [identify_columns_with_threads, List.isEmpty_cons,
          Bool.not_false, Bool.and_true, if_true]
        have hcoll : collectMappings df tcs (some (b :: m₁')) oracle
            = collectMappings df tcs (some (a :: m')) oracle := rfl
        rw [hcoll]
        have hidem : updateHistorical
            (collectMappings df tcs (some (a :: m')) oracle) (b :: m₁') = .ok (b :: m₁') := by
          rw [← hm₁]
          exact updateHistorical_ok_of_mem _ m₁ hpost
        rw [hidem]
        simp [Except.map, hcm]

/-- Witness for C2 at a one-column registry whose first run appended the alias
`Acct`. -/
theorem C2_alias_idempotence_witness :
    identify_columns_with_threads
        { index := [0], cols := [("Acct", ["a1"])] }
        [{ name := "account_id", data_type := "string", description := "id" }]
        (some [("account_id", ["Acct"])]) true
        (fun _ => some [("account_id", "Acct")])
      = .ok ([("account_id", "Acct")], some [("account_id", ["Acct"])]) :=
  C2_alias_idempotence
    { index := [0], cols := [("Acct", ["a1"])] }
    [{ name := "account_id", data_type := "string", description := "id" }]
    [("account_id", [])] [("account_id", ["Acct"])]
    (fun _ => some [("account_id", "Acct")])
    [("account_id", "Acct")] rfl

/-! Section: Claim C3: fan-out fault tolerance -/

/-- Claim C3: with target-column names unique (a registry invariant), every
name keyed in the alias partition (as callers establish with `setdefault`),
and exactly one per-column classification failing validation, the coordinator
returns without raising, its mapping has exactly N-1 entries, and the failing
column has no entry. -/
theorem C3_fanout_fault_tolerance (df : DataFrame) (tcs : List TargetColumn)
    (m : List (String × List String)) (oracle : String → OracleResp)
    (hnodup : (tcs.map (fun tc => tc.name)).Nodup)
    (hkeys : ∀ tc ∈ tcs, dictHasKey m tc.name = true)
    (hfail : (tcs.filter
        (fun tc => (identify_column df tc (some m) (oracle tc.name)).isNone)).length
      = 1) :
    ∃ r, identify_columns_with_threads df tcs (some m) true oracle = .ok r ∧
      r.1.length = tcs.length - 1 ∧
      ∀ tc ∈ tcs, identify_column df tc (some m) (oracle tc.name) = none →
        dictGet r.1 tc.name = none := by
  have hcmkeys : ∀ p ∈ collectMappings df tcs (some m) oracle,
      dictHasKey m p.1 = true := by
    intro p hp
    rcases collectMappings_mem df tcs (some m) oracle p hp with ⟨tc, htc, hname, _⟩
    rw [hname]
    exact hkeys tc htc
  have hlen : (collectMappings df tcs (some m) oracle).length = tcs.length - 1 := by
    rw [collectMappings_eq_filterMap df tcs (some m) oracle hnodup]
    have hsum := length_filterMap_add
      (fun tc => (identify_column df tc (some m) (oracle tc.name)).map
        (fun g => (tc.name, g))) tcs
    have hfilter : tcs.filter
        (fun tc => ((identify_column df tc (some m) (oracle tc.name)).map
          (fun g => (tc.name, g))).isNone)
        = tcs.filter
            (fun tc => (identify_column df tc (some m) (oracle tc.name)).isNone) :=
      List.filter_congr (fun tc _ => by simp)
    rw [hfilter, hfail] at hsum
    omega
  have hnone : ∀ tc ∈ tcs, identify_column df tc (some m) (oracle tc.name) = none →
      dictGet (collectMappings df tcs (some m) oracle) tc.name = none := by
    intro tc htc hid
    cases hget : dictGet (collectMappings df tcs (some m) oracle) tc.name with
    | none => rfl
    | some v =>
      exfalso
      have hmem := dictGet_some_mem _ tc.name v hget
      rcases collectMappings_mem df tcs (some m) oracle (tc.name, v) hmem with
        ⟨tc', htc', hname, hid'⟩
      have heq : tc' = tc :=
        List.inj_on_of_nodup_map hnodup htc' htc hname.symm
      rw [heq] at hid'
      rw [hid] at hid'
      cases hid'
  cases hm : m with
  | nil =>
    rw [hm] at hkeys hcmkeys hlen hnone hfail
    refine ⟨(collectMappings df tcs (some []) oracle, some []), ?_, hlen, hnone⟩
    simp [identify_columns_with_threads]
  | cons a m' =>
    rw [hm] at hkeys hcmkeys hlen hnone hfail
    rcases updateHistorical_ok_of_hasKey (collectMappings df tcs (some (a :: m')) oracle)
        (a :: m') hcmkeys with ⟨m₂, hu⟩
    refine ⟨(collectMappings df tcs (some (a :: m')) oracle, some m₂), ?_, hlen, hnone⟩
    simp only [identify_columns_with_threads, List.isEmpty_cons, Bool.not_false,
      Bool.and_true, if_true, hu, Except.map]

/-- Witness for C3: two target columns, the oracle answer for `b` names a
column absent from the source table; the result has one entry and none for
`b`. -/
theorem C3_fanout_fault_tolerance_witness :
    ∃ r, identify_columns_with_threads
        { index := [0], cols := [("X", ["1"])] }
        [{ name := "a", data_type := "t", description := "d" },
         { name := "b", data_type := "t", description := "d" }]
        (some [("a", []), ("b", [])]) true
        (fun n => if n = "a" then some [("a", "X")] else some [("b", "ZZZ")])
      = .ok r ∧
      r.1.length
        = ([{ name := "a", data_type := "t", description := "d" },
            { name := "b", data_type := "t", description := "d" }] :
              List TargetColumn).length - 1 ∧
      ∀ tc ∈ ([{ name := "a", data_type := "t", description := "d" },
               { name := "b", data_type := "t", description := "d" }] :
                 List TargetColumn),
        identify_column { index := [0], cols := [("X", ["1"])] } tc
            (some [("a", []), ("b", [])])
            ((fun n => if n = "a" then some [("a", "X")] else some [("b", "ZZZ")]) tc.name)
          = none →
        dictGet r.1 tc.name = none :=
  C3_fanout_fault_tolerance
    { index := [0], cols := [("X", ["1"])] }
    [{ name := "a", data_type := "t", description := "d" },
     { name := "b", data_type := "t", description := "d" }]
    [("a", []), ("b", [])]
    (fun n => if n = "a" then some [("a", "X")] else some [("b", "ZZZ")])
    (by decide) (by decide) (by decide)

/-! Section: Claim C6: mapping values are present source columns -/

/-- Claim C6: whenever the coordinator returns a mapping, every value of it
is a column present in the source DataFrame; and `identify_column` answers
`none` (a Failure) whenever the oracle proposes a column absent from the
DataFrame, with no local coercion. -/
theorem C6_mapping_values_present (df : DataFrame) (tcs : List TargetColumn)
    (hm : Option (List (String × List String))) (uh : Bool)
    (oracle : String → OracleResp)
    (r : List (String × String) × Option (List (String × List String)))
    (h : identify_columns_with_threads df tcs hm uh oracle = .ok r) :
    (∀ p ∈ r.1, dfHasCol df p.2 = true) ∧
    (∀ (tc : TargetColumn) (obj : List (String × String)) (g : String),
      dictGet obj tc.name = some g → dfHasCol df g = false →
      identify_column df tc hm (some obj) = none) := by
  constructor
  · intro p hp
    rw [itct_ok_fst df tcs hm uh oracle r h] at hp
    rcases collectMappings_mem df tcs hm oracle p hp with ⟨tc, _, _, hid⟩
    exact identify_column_hasCol df tc hm (oracle tc.name) p.2 hid
  · intro tc obj g hg hc
    exact identify_column_none_of_not_hasCol df tc hm obj g hg hc

/-- Witness for C6: a successful run's single mapping value is a real column,
and a response naming an absent column is rejected. -/
theorem C6_mapping_values_present_witness :
    dfHasCol { index := [0], cols := [("X", ["1"])] } "X" = true ∧
    identify_column { index := [0], cols := [("X", ["1"])] }
        { name := "a", data_type := "t", description := "d" } none
        (some [("a", "ZZZ")]) = none :=
  ⟨(C6_mapping_values_present { index := [0], cols := [("X", ["1"])] }
      [{ name := "a", data_type := "t", description := "d" }] none false
      (fun _ => some [("a", "X")]) ([("a", "X")], none) rfl).1
      ("a", "X") (by decide),
   (C6_mapping_values_present { index := [0], cols := [("X", ["1"])] }
      [{ name := "a", data_type := "t", description := "d" }] none false
      (fun _ => some [("a", "X")]) ([("a", "X")], none) rfl).2
      { name := "a", data_type := "t", description := "d" }
      [("a", "ZZZ")] "ZZZ" rfl (by decide)⟩

/-! Section: Claim C9: persistence failures do not affect the mapping result -/

/-- Claim C9: for every read outcome (including a failed read), every re-read
outcome and every write outcome, the column phase of
`identify_sheet_and_columns` succeeds and returns exactly the mappings the
classification produced; and a failed read yields the empty per-table
partition (one empty alias list per target column). -/
theorem C9_persistence_best_effort (df : DataFrame) (tcs : List TargetColumn)
    (oracle : String → OracleResp) (readResult rereadResult : Option Store)
    (writeOk : Bool) (t : String) :
    (identify_sheet_and_columns df tcs oracle readResult rereadResult writeOk t).1.success
      = true ∧
    (identify_sheet_and_columns df tcs oracle readResult rereadResult writeOk t).1.column_mappings
      = collectMappings df tcs
          (some (ensureKeys (initialPartition readResult t tcs) tcs)) oracle ∧
    initialPartition none t tcs = tcs.map (fun c => (c.name, [])) := by
  have hcmkeys : ∀ p ∈ collectMappings df tcs
      (some (ensureKeys (initialPartition readResult t tcs) tcs)) oracle,
      dictHasKey (ensureKeys (initialPartition readResult t tcs) tcs) p.1 = true := by
    intro p hp
    rcases collectMappings_mem df tcs _ oracle p hp with ⟨tc, htc, hname, _⟩
    rw [hname]
    exact ensureKeys_hasKey tcs (initialPartition readResult t tcs) tc htc
  cases hm1 : ensureKeys (initialPartition readResult t tcs) tcs with
  | nil =>
    rw [hm1] at hcmkeys
    have hitct : identify_columns_with_threads df tcs (some []) true oracle
        = .ok (collectMappings df tcs (some []) oracle, some []) := by
      simp [identify_columns_with_threads]
    refine ⟨?_, ?_, rfl⟩ <;>
      simp [identify_sheet_and_columns, hm1, hitct]
  | cons a m' =>
    rw [hm1] at hcmkeys
    rcases updateHistorical_ok_of_hasKey
        (collectMappings df tcs (some (a :: m')) oracle) (a :: m') hcmkeys with ⟨m₂, hu⟩
    have hitct : identify_columns_with_threads df tcs (some (a :: m')) true oracle
        = .ok (collectMappings df tcs (some (a :: m')) oracle, some m₂) := by
      simp only [identify_columns_with_threads, List.isEmpty_cons, Bool.not_false,
        Bool.and_true, if_true, hu, Except.map]
    refine ⟨?_, ?_, rfl⟩ <;>
      simp [identify_sheet_and_columns, hm1, hitct]

/-- Witness for C9 with a failed read, a failed re-read and a failed write:
the run still succeeds with the classified mapping. -/
theorem C9_persistence_best_effort_witness :
    (identify_sheet_and_columns { index := [0], cols := [("X", ["1"])] }
        [{ name := "a", data_type := "t", description := "d" }]
        (fun _ => some [("a", "X")]) none none false "dbo.Accounts").1.success
      = true ∧
    (identify_sheet_and_columns { index := [0], cols := [("X", ["1"])] }
        [{ name := "a", data_type := "t", description := "d" }]
        (fun _ => some [("a", "X")]) none none false "dbo.Accounts").1.column_mappings
      = collectMappings { index := [0], cols := [("X", ["1"])] }
          [{ name := "a", data_type := "t", description := "d" }]
          (some (ensureKeys
            (initialPartition none "dbo.Accounts"
              [{ name := "a", data_type := "t", description := "d" }])
            [{ name := "a", data_type := "t", description := "d" }]))
          (fun _ => some [("a", "X")]) ∧
    initialPartition none "dbo.Accounts"
        [{ name := "a", data_type := "t", description := "d" }]
      = [("a", [])] :=
  C9_persistence_best_effort { index := [0], cols := [("X", ["1"])] }
    [{ name := "a", data_type := "t", description := "d" }]
    (fun _ => some [("a", "X")]) none none false "dbo.Accounts"

/-! Section: Claim C10: the alias-update step requires keys for mapped columns -/

/-- Claim C10: with a non-empty alias partition, a successfully mapped column
whose name is missing from the partition makes the coordinator raise
(`KeyError` from indexing without a default) instead of creating the entry;
callers establish the precondition because `setdefault` initialisation gives
every target column a key. -/
theorem C10_update_requires_keys (df : DataFrame) (tcs : List TargetColumn)
    (oracle : String → OracleResp) (m : List (String × List String))
    (k v : String) (hmne : m ≠ [])
    (hmem : (k, v) ∈ collectMappings df tcs (some m) oracle)
    (hmiss : dictGet m k = none) :
    (∃ e, identify_columns_with_threads df tcs (some m) true oracle = .error e) ∧
    (∀ (hm : List (String × List String)) (tcs' : List TargetColumn)
      (tc : TargetColumn), tc ∈ tcs' →
      dictHasKey (ensureKeys hm tcs') tc.name = true) := by
  constructor
  · rcases updateHistorical_error_of_missing
        (collectMappings df tcs (some m) oracle) m k v hmem hmiss with ⟨e, he⟩
    refine ⟨e, ?_⟩
    cases m with
    | nil => exact absurd rfl hmne
    | cons a m' =>
      simp only [identify_columns_with_threads, List.isEmpty_cons, Bool.not_false,
        Bool.and_true, if_true, he, Except.map]
  · intro hm tcs' tc htc
    exact ensureKeys_hasKey tcs' hm tc htc

/-- Witness for C10: the partition holds a key for `zzz` only, while the
oracle maps target column `a`; the coordinator raises. -/
theorem C10_update_requires_keys_witness :
    (∃ e, identify_columns_with_threads { index := [0], cols := [("X", ["1"])] }
        [{ name := "a", data_type := "t", description := "d" }]
        (some [("zzz", [])]) true (fun _ => some [("a", "X")]) = .error e) ∧
    (∀ (hm : List (String × List String)) (tcs' : List TargetColumn)
      (tc : TargetColumn), tc ∈ tcs' →
      dictHasKey (ensureKeys hm tcs') tc.name = true) :=
  C10_update_requires_keys { index := [0], cols := [("X", ["1"])] }
    [{ name := "a", data_type := "t", description := "d" }]
    (fun _ => some [("a", "X")]) [("zzz", [])] "a" "X"
    (by decide) (by decide) rfl

/-! Section: MappingApplier lemmas -/

theorem dictHasKey_iff_isSome (l : List (String × α)) (k : String) :
    dictHasKey l k = true ↔ ∃ v, dictGet l k = some v := by
  constructor
  · intro h
    cases hg : dictGet l k with
    | none =>
      rw [(dictGet_eq_none_iff l k).mp hg] at h
      cases h
    | some v => exact ⟨v, rfl⟩
  · rintro ⟨v, hv⟩
    cases hh : dictHasKey l k with
    | false =>
      rw [(dictGet_eq_none_iff l k).mpr hh] at hv
      cases hv
    | true => rfl

theorem apply_aux_cols (df : DataFrame) :
    ∀ (mappings : List (String × String)) (acc : DataFrame),
      (mappings.map Prod.fst).Nodup →
      (∀ p ∈ mappings, dictHasKey acc.cols p.1 = false) →
      (List.foldl
        (fun result_df p =>
          match dfGetCol df p.2 with
          | some vals =>
            { index := if result_df.cols.isEmpty then df.index else result_df.index,
              cols := dictSet result_df.cols p.1 vals }
          | none => result_df) acc mappings).cols.map Prod.fst
      = acc.cols.map Prod.fst
        ++ (mappings.filter (fun p => dfHasCol df p.2)).map Prod.fst := by
  intro mappings
  induction mappings with
  | nil => intro acc _ _; simp
  | cons p rest ih =>
    intro acc hnodup hkeys
    have hnodup' : (rest.map Prod.fst).Nodup := by
      simp only [List.map_cons, List.nodup_cons] at hnodup
      exact hnodup.2
    have hname : p.1 ∉ rest.map Prod.fst := by
      simp only [List.map_cons, List.nodup_cons] at hnodup
      exact hnodup.1
    cases hg : dfGetCol df p.2 with
    | none =>
      have hcol : dfHasCol df p.2 = false := (dictGet_eq_none_iff df.cols p.2).mp hg
      have hstep : List.foldl
          (fun result_df p =>
            match dfGetCol df p.2 with
            | some vals =>
              { index := if result_df.cols.isEmpty then df.index else result_df.index,
                cols := dictSet result_df.cols p.1 vals }
            | none => result_df) acc (p :: rest)
        = List.foldl
            (fun result_df p =>
              match dfGetCol df p.2 with
              | some vals =>
                { index := if result_df.cols.isEmpty then df.index else result_df.index,
                  cols := dictSet result_df.cols p.1 vals }
              | none => result_df) acc rest := by
        simp [List.foldl_cons, hg]
      rw [hstep, ih acc hnodup' (fun q hq => hkeys q (List.mem_cons_of_mem _ hq))]
      simp [List.filter_cons, hcol]
    | some vals =>
      have hcol : dfHasCol df p.2 = true :=
        (dictHasKey_iff_isSome df.cols p.2).mpr ⟨vals, hg⟩
      have hkey : dictHasKey acc.cols p.1 = false := hkeys p (List.mem_cons_self _ _)
      have hstep : List.foldl
          (fun result_df p =>
            match dfGetCol df p.2 with
            | some vals =>
              { index := if result_df.cols.isEmpty then df.index else result_df.index,
                cols := dictSet result_df.cols p.1 vals }
            | none => result_df) acc (p :: rest)
        = List.foldl
            (fun result_df p =>
              match dfGetCol df p.2 with
              | some vals =>
                { index := if result_df.cols.isEmpty then df.index else result_df.index,
                  cols := dictSet result_df.cols p.1 vals }
              | none => result_df)
            { index := if acc.cols.isEmpty then df.index else acc.index,
              cols := acc.cols ++ [(p.1, vals)] } rest := by
        simp [List.foldl_cons, hg, dictSet_of_not_hasKey acc.cols p.1 vals hkey]
      have hkeys' : ∀ q ∈ rest,
          dictHasKey (acc.cols ++ [(p.1, vals)]) q.1 = false := by
        intro q hq
        have h1 : dictHasKey acc.cols q.1 = false :=
          hkeys q (List.mem_cons_of_mem _ hq)
        have h2 : ¬ q.1 = p.1 := by
          intro hh
          exact hname (hh ▸ List.mem_map_of_mem Prod.fst hq)
        have h2s : ¬ p.1 = q.1 := fun hh => h2 hh.symm
        simp [dictHasKey_append, h1, dictHasKey, h2, h2s]
      have hres := ih
        (DataFrame.mk (if acc.cols.isEmpty then df.index else acc.index)
          (acc.cols ++ [(p.1, vals)])) hnodup' hkeys'
      rw [hstep, hres]
      simp [List.filter_cons, hcol]

theorem apply_aux_index (df : DataFrame) :
    ∀ (mappings : List (String × String)) (acc : DataFrame), acc.cols ≠ [] →
      (List.foldl
        (fun result_df p =>
          match dfGetCol df p.2 with
          | some vals =>
            { index := if result_df.cols.isEmpty then df.index else result_df.index,
              cols := dictSet result_df.cols p.1 vals }
          | none => result_df) acc mappings).index = acc.index ∧
      (List.foldl
        (fun result_df p =>
          match dfGetCol df p.2 with
          | some vals =>
            { index := if result_df.cols.isEmpty then df.index else result_df.index,
              cols := dictSet result_df.cols p.1 vals }
          | none => result_df) acc mappings).cols ≠ [] := by
  intro mappings
  induction mappings with
  | nil => intro acc hne; exact ⟨rfl, hne⟩
  | cons p rest ih =>
    intro acc hne
    cases hg : dfGetCol df p.2 with
    | none =>
      have hstep : List.foldl
          (fun result_df p =>
            match dfGetCol df p.2 with
            | some vals =>
              { index := if result_df.cols.isEmpty then df.index else result_df.index,
                cols := dictSet result_df.cols p.1 vals }
            | none => result_df) acc (p :: rest)
        = List.foldl
            (fun result_df p =>
              match dfGetCol df p.2 with
              | some vals =>
                { index := if result_df.cols.isEmpty then df.index else result_df.index,
                  cols := dictSet result_df.cols p.1 vals }
              | none => result_df) acc rest := by
        simp [List.foldl_cons, hg]
      rw [hstep]
      exact ih acc hne
    | some vals =>
      have hie : acc.cols.isEmpty = false := by
        cases hc : acc.cols with
        | nil => exact absurd hc hne
        | cons a l => rfl
      have hstep : List.foldl
          (fun result_df p =>
            match dfGetCol df p.2 with
            | some vals =>
              { index := if result_df.cols.isEmpty then df.index else result_df.index,
                cols := dictSet result_df.cols p.1 vals }
            | none => result_df) acc (p :: rest)
        = List.foldl
            (fun result_df p =>
              match dfGetCol df p.2 with
              | some vals =>
                { index := if result_df.cols.isEmpty then df.index else result_df.index,
                  cols := dictSet result_df.cols p.1 vals }
              | none => result_df)
            { index := acc.index, cols := dictSet acc.cols p.1 vals } rest := by
        simp [List.foldl_cons, hg, hie, hne]
      rw [hstep]
      exact ih { index := acc.index, cols := dictSet acc.cols p.1 vals }
        (dictSet_ne_nil acc.cols p.1 vals)

theorem apply_index_of_exists (df : DataFrame) (mappings : List (String × String))
    (h : ∃ p ∈ mappings, dfHasCol df p.2 = true) :
    (apply_column_mappings df mappings).index = df.index := by
  induction mappings with
  | nil => simp at h
  | cons p rest ih =>
    cases hg : dfGetCol df p.2 with
    | some vals =>
      have hstep : apply_column_mappings df (p :: rest)
          = List.foldl
              (fun result_df p =>
                match dfGetCol df p.2 with
                | some vals =>
                  { index := if result_df.cols.isEmpty then df.index else result_df.index,
                    cols := dictSet result_df.cols p.1 vals }
                | none => result_df)
              { index := df.index, cols := [(p.1, vals)] } rest := by
        simp [apply_column_mappings, List.foldl_cons, hg, dictSet]
      rw [hstep]
      exact (apply_aux_index df rest { index := df.index, cols := [(p.1, vals)] }
        (List.cons_ne_nil _ _)).1
    | none =>
      have hcol : dfHasCol df p.2 = false := (dictGet_eq_none_iff df.cols p.2).mp hg
      rcases h with ⟨q, hq, hqcol⟩
      rcases List.mem_cons.mp hq with hqp | hqr
      · rw [hqp] at hqcol
        rw [hqcol] at hcol
        cases hcol
      · have hstep : apply_column_mappings df (p :: rest)
            = apply_column_mappings df rest := by
          simp [apply_column_mappings, List.foldl_cons, hg]
        rw [hstep]
        exact ih ⟨q, hqr, hqcol⟩

/-! Section: Claim C1: output column order -/

/-- Counterexample to claim C1 as stated: with the default registry order
(`account_id` before `balance`) and a mapping inserted in the order
`balance`, `account_id`, the output columns follow the mapping's insertion
order, not the registry's declared order restricted to the mapped keys. -/
theorem C1_registry_order_counterexample :
    ¬ ((apply_column_mappings { index := [0], cols := [("X", ["1"]), ("Y", ["2"])] }
          [("balance", "Y"), ("account_id", "X")]).cols.map Prod.fst
        = TARGET_COLUMN_NAMES.filter
            (fun n => ["balance", "account_id"].contains n)) := by
  decide

/-- Claim C1 amended: `apply_column_mappings` orders the output columns by
the mapping's insertion order restricted to entries whose source column
exists in the DataFrame (dict keys are unique, hence the `Nodup`
hypothesis) — not by the registry's declared order. -/
theorem C1_apply_follows_mapping_order (df : DataFrame)
    (mappings : List (String × String))
    (hnodup : (mappings.map Prod.fst).Nodup) :
    (apply_column_mappings df mappings).cols.map Prod.fst
      = (mappings.filter (fun p => dfHasCol df p.2)).map Prod.fst := by
  have h := apply_aux_cols df mappings { index := [], cols := [] } hnodup
    (fun p _ => rfl)
  simpa [apply_column_mappings] using h

/-- Witness for the amended C1 at the counterexample's input. -/
theorem C1_apply_follows_mapping_order_witness :
    (apply_column_mappings { index := [0], cols := [("X", ["1"]), ("Y", ["2"])] }
        [("balance", "Y"), ("account_id", "X")]).cols.map Prod.fst
      = ([("balance", "Y"), ("account_id", "X")].filter
          (fun p => dfHasCol { index := [0], cols := [("X", ["1"]), ("Y", ["2"])] }
            p.2)).map Prod.fst :=
  C1_apply_follows_mapping_order
    { index := [0], cols := [("X", ["1"]), ("Y", ["2"])] }
    [("balance", "Y"), ("account_id", "X")] (by decide)

/-! Section: Claim C8: row preservation and skipping -/

/-- Counterexample to claim C8 as stated: with an empty mapping the result is
`pd.DataFrame()` with zero rows, while the one-row input keeps its row — the
row-count equality does not hold for every ColumnMapping. -/
theorem C8_rowcount_counterexample :
    ¬ ((apply_column_mappings { index := [0], cols := [("X", ["v"])] } []).index.length
        = ({ index := [0], cols := [("X", ["v"])] } : DataFrame).index.length) := by
  decide

/-- Claim C8 amended: provided at least one mapping entry's source column is
present in the DataFrame (and mapping keys are unique, as in a dict), the
output keeps the input's row index (hence its row count); entries whose
source column is absent are skipped, and a target column appears in the
output exactly when the mapping sends it to a present source column. -/
theorem C8_apply_rows_and_skipping (df : DataFrame)
    (mappings : List (String × String))
    (hnodup : (mappings.map Prod.fst).Nodup)
    (hsome : ∃ p ∈ mappings, dfHasCol df p.2 = true) :
    (apply_column_mappings df mappings).index = df.index ∧
    (apply_column_mappings df mappings).index.length = df.index.length ∧
    ∀ t, (t ∈ (apply_column_mappings df mappings).cols.map Prod.fst ↔
      ∃ e, (t, e) ∈ mappings ∧ dfHasCol df e = true) := by
  have hidx := apply_index_of_exists df mappings hsome
  have hcols : (apply_column_mappings df mappings).cols.map Prod.fst
      = (mappings.filter (fun p => dfHasCol df p.2)).map Prod.fst := by
    have h := apply_aux_cols df mappings { index := [], cols := [] } hnodup
      (fun p _ => rfl)
    simpa [apply_column_mappings] using h
  refine ⟨hidx, by rw [hidx], ?_⟩
  intro t
  rw [hcols]
  constructor
  · intro ht
    rcases List.mem_map.mp ht with ⟨p, hp, hfst⟩
    rcases List.mem_filter.mp hp with ⟨hpm, hcol⟩
    refine ⟨p.2, ?_, hcol⟩
    have hpt : (t, p.2) = p := by
      cases p
      simp_all
    rw [hpt]
    exact hpm
  · rintro ⟨e, hme, hcol⟩
    exact List.mem_map.mpr ⟨(t, e), List.mem_filter.mpr ⟨hme, hcol⟩, rfl⟩

/-- Witness for the amended C8: a two-entry mapping with one absent source
column keeps the two input rows and yields exactly the one mapped target. -/
theorem C8_apply_rows_and_skipping_witness :
    (apply_column_mappings { index := [0, 1], cols := [("X", ["1", "2"])] }
        [("a", "X"), ("b", "NOPE")]).index
      = ({ index := [0, 1], cols := [("X", ["1", "2"])] } : DataFrame).index ∧
    (apply_column_mappings { index := [0, 1], cols := [("X", ["1", "2"])] }
        [("a", "X"), ("b", "NOPE")]).index.length
      = ({ index := [0, 1], cols := [("X", ["1", "2"])] } : DataFrame).index.length ∧
    ∀ t, (t ∈ (apply_column_mappings { index := [0, 1], cols := [("X", ["1", "2"])] }
        [("a", "X"), ("b", "NOPE")]).cols.map Prod.fst ↔
      ∃ e, (t, e) ∈ [("a", "X"), ("b", "NOPE")] ∧
        dfHasCol { index := [0, 1], cols := [("X", ["1", "2"])] } e = true) :=
  C8_apply_rows_and_skipping { index := [0, 1], cols := [("X", ["1", "2"])] }
    [("a", "X"), ("b", "NOPE")] (by decide) (by decide)

end AIPlayground
